import Mathlib

/-!
Verification development for the MODIS sinusoidal-grid footprint core of
`stactools-modis`.

The repository sources under `src/` are `src/stactools/modis/constants.py`
(the sinusoidal grid constants and the per-collection footprint metadata
table) and `src/stactools/modis/stac.py` (`create_collection`, `create_item`,
`create_item_from_cogs`).  The Grid Projector / Footprint Builder module
(`stactools.modis.sinusoidal`, providing `update_geometry`) is not part of
the sources; where a claim depends on it, the definitions below are modelled
from the specification and say so in their doc comments.

Machine reals of the Python code are embedded as exact rationals (the grid
constants are decimal literals) and mathematical reals (the projection uses
`Real.cos` and real division); degree outputs are rounded to `PRECISION`
decimal digits exactly as the spec prescribes.
-/

namespace Modis

open Real

/-! ### Constants, from `src/src/stactools/modis/constants.py` -/

/-- Decimal precision of geographic coordinates (constants.py line 22). -/
def PRECISION : ℕ := 6

/-- Sphere radius of the MODIS sinusoidal projection in meters (constants.py line 28). -/
def SINUSOIDAL_SPHERE_RADIUS : ℚ := 6371007.18100

/-- Edge length of one MODIS tile in meters (constants.py line 29). -/
def SINUSOIDAL_TILE_METERS : ℚ := 1111950.51977

/-- Minimum x coordinate of the sinusoidal grid in meters (constants.py line 30). -/
def SINUSOIDAL_X_MIN : ℚ := -20015109.3558

/-- Maximum y coordinate of the sinusoidal grid in meters (constants.py line 31). -/
def SINUSOIDAL_Y_MAX : ℚ := 10007554.6779

/-- One entry of the collection footprint metadata table: the tile edge length
in pixels and the optional asset lists, mirroring the keys that may appear in
each Python dict entry. -/
structure FootprintMeta where
  sin_tile_pixels : ℕ
  footprint_assets : Option (List String)
  footprint_asset_bands : Option (List ℕ)
deriving DecidableEq

/-- Embedding of `COLLECTION_FOOTPRINT_METADATA` (constants.py lines 33-141).
The Python dict literal lists the key `"13Q1"` twice with identical values;
a Python dict keeps the first position with the last value, so the embedded
association list carries the single resulting entry. -/
def COLLECTION_FOOTPRINT_METADATA : List (String × FootprintMeta) :=
  [ ("11A1", ⟨1200, some ["LST_Day_1km", "LST_Night_1km", "Emis_31", "Emis_32"], none⟩),
    ("11A2", ⟨1200, some ["LST_Day_1km", "LST_Night_1km", "Emis_31", "Emis_32"], none⟩),
    ("14A1", ⟨1200, some ["FireMask"], some []⟩),
    ("14A2", ⟨1200, some ["FireMask"], some []⟩),
    ("21A2", ⟨1200, some ["LST_Day_1km", "LST_Night_1km", "Emis_31", "Emis_32"], none⟩),
    ("09A1", ⟨2400, some ["sur_refl_b01", "sur_refl_b02", "sur_refl_b03", "sur_refl_b04",
      "sur_refl_b05", "sur_refl_b06", "sur_refl_b07"], none⟩),
    ("09GA", ⟨2400, some ["sur_refl_b01", "sur_refl_b02", "sur_refl_b03", "sur_refl_b04",
      "sur_refl_b05", "sur_refl_b06", "sur_refl_b07"], none⟩),
    ("09GQ", ⟨4800, some ["sur_refl_b01", "sur_refl_b02"], none⟩),
    ("10A1", ⟨2400, some ["NDSI_Snow_Cover", "Snow_Albedo_Daily_Tile"], none⟩),
    ("10A2", ⟨2400, some ["Maximum_Snow_Extent"], none⟩),
    ("12Q1", ⟨2400, none, none⟩),
    ("13A1", ⟨2400, some ["500m_16_days_NDVI"], none⟩),
    ("13A2", ⟨1200, some ["1km_16_days_NDVI"], none⟩),
    ("13A3", ⟨1200, some ["1km_monthly_NDVI"], none⟩),
    ("13Q1", ⟨4800, some ["250m_16_days_NDVI"], none⟩),
    ("15A2H", ⟨2400, some ["Fpar_500m"], none⟩),
    ("15A3H", ⟨2400, some ["Fpar_500m"], none⟩),
    ("16A3GF", ⟨2400, some ["ET_500m"], none⟩),
    ("17A2H", ⟨2400, some ["Gpp_500m"], none⟩),
    ("17A2HGF", ⟨2400, some ["Gpp_500m"], none⟩),
    ("17A3HGF", ⟨2400, some ["Gpp_500m"], none⟩),
    ("43A4", ⟨2400, some ["Nadir_Reflectance_Band1", "Nadir_Reflectance_Band2",
      "Nadir_Reflectance_Band3", "Nadir_Reflectance_Band4", "Nadir_Reflectance_Band5",
      "Nadir_Reflectance_Band6", "Nadir_Reflectance_Band7"], none⟩),
    ("44W", ⟨2400, none, none⟩),
    ("64A1", ⟨2400, some ["Burn_Date"], none⟩),
    ("09Q1", ⟨4800, some ["sur_refl_b01", "sur_refl_b02"], none⟩),
    ("44B", ⟨4800, none, none⟩) ]

/-! ### Models of `src/src/stactools/modis/stac.py` -/

/-- The error raised by `create_item` when `raster_footprint` is requested
without `create_cogs` (stac.py lines 130-133). -/
inductive StacError where
  | valueError : StacError
deriving DecidableEq

/-- Shallow embedding of `create_item` (stac.py lines 92-134).  The builder's
item and `update_geometry` are abstract parameters; the `Bool` paired with
the returned item records whether `update_geometry` was invoked on it.  The
code builds the item, then: if `raster_footprint` and `create_cogs` it calls
`update_geometry`; if `raster_footprint` without `create_cogs` it raises
`ValueError`; otherwise it returns the item untouched. -/
def create_item (Item : Type) (builder_item : Item) (update_geometry : Item → Item)
    (create_cogs raster_footprint : Bool) : Except StacError (Item × Bool) :=
  if raster_footprint then
    if create_cogs then Except.ok (update_geometry builder_item, true)
    else Except.error StacError.valueError
  else Except.ok (builder_item, false)

/-- Shallow embedding of `create_item_from_cogs` (stac.py lines 137-162): it
builds the item from the COG hrefs and calls `update_geometry` exactly when
`raster_footprint` is set; there is no `create_cogs` precondition and no
error path. -/
def create_item_from_cogs (Item : Type) (builder_item : Item)
    (update_geometry : Item → Item) (raster_footprint : Bool) :
    Except StacError (Item × Bool) :=
  if raster_footprint then Except.ok (update_geometry builder_item, true)
  else Except.ok (builder_item, false)

/-- Schema URI of the classification extension (constants.py lines 5-7). -/
def CLASSIFICATION_EXTENSION_HREF : String :=
  "https://stac-extensions.github.io/classification/v1.0.0/schema.json"

/-- Schema URI returned by pystac's `EOExtension.get_schema_uri()`. -/
def EO_SCHEMA_URI : String :=
  "https://stac-extensions.github.io/eo/v1.1.0/schema.json"

/-- Schema URI returned by pystac's `RasterExtension.get_schema_uri()`. -/
def RASTER_SCHEMA_URI : String :=
  "https://stac-extensions.github.io/raster/v1.1.0/schema.json"

/-- Schema URI appended by pystac's `ItemAssetsExtension.ext(collection,
add_if_missing=True)` (stac.py line 80). -/
def ITEM_ASSETS_SCHEMA_URI : String :=
  "https://stac-extensions.github.io/item-assets/v1.0.0/schema.json"

/-- Schema URI appended by pystac's `ScientificExtension.add_to(collection)`
(stac.py line 84). -/
def SCIENTIFIC_SCHEMA_URI : String :=
  "https://stac-extensions.github.io/scientific/v1.0.0/schema.json"

/-- Abstraction of one band fragment as consumed by `create_collection`
(stac.py lines 65-77): which of the three extension-triggering keys are
present in the band dict. -/
structure BandFragment where
  has_eo_bands : Bool
  has_raster_bands : Bool
  has_classification_classes : Bool
deriving DecidableEq

/-- The extension URIs appended to `collection.stac_extensions` by the band
loop of `create_collection` (stac.py lines 65-77), in loop order; the fresh
pystac collection starts with an empty extension list. -/
def band_extension_uris (bands : List BandFragment) : List String :=
  bands.foldl (fun acc b =>
    let acc := if b.has_eo_bands then acc ++ [EO_SCHEMA_URI] else acc
    let acc := if b.has_raster_bands then acc ++ [RASTER_SCHEMA_URI] else acc
    if b.has_classification_classes then acc ++ [CLASSIFICATION_EXTENSION_HREF] else acc) []

/-- pystac's `add_if_missing` behaviour: append the schema URI unless it is
already listed. -/
def add_if_missing (u : String) (l : List String) : List String :=
  if u ∈ l then l else l ++ [u]

/-- The final `stac_extensions` list of the collection returned by
`create_collection` (stac.py lines 50-89): the band-loop URIs are
deduplicated (`list(set(...))`, line 78) and sorted (line 79), then
`ItemAssetsExtension.ext(collection, add_if_missing=True)` (line 80) appends
the item-assets schema URI, and when the collection fragment carries
`sci:publications`, `ScientificExtension.add_to` (line 84) appends the
scientific schema URI. -/
def create_collection_stac_extensions (bands : List BandFragment)
    (has_sci_publications : Bool) : List String :=
  let exts := ((band_extension_uris bands).dedup).mergeSort
  let exts := add_if_missing ITEM_ASSETS_SCHEMA_URI exts
  if has_sci_publications then add_if_missing SCIENTIFIC_SCHEMA_URI exts else exts

/-! ### Grid Projector, modelled from the spec (section 4.1) -/

/-- Modelled from the spec: `tile_origin(h, v)` of the missing
`stactools.modis.sinusoidal` module returns the sinusoidal-plane coordinate
of the tile's northwest corner, `x = GRID_X_MIN + h * TILE_METERS`,
`y = GRID_Y_MAX - v * TILE_METERS`; no bounds check is performed. -/
def tile_origin (h v : ℕ) : ℚ × ℚ :=
  (SINUSOIDAL_X_MIN + h * SINUSOIDAL_TILE_METERS,
   SINUSOIDAL_Y_MAX - v * SINUSOIDAL_TILE_METERS)

/-- Modelled from the spec: `pixel_to_sinusoidal` of the missing
`stactools.modis.sinusoidal` module offsets linearly from the tile origin,
`x = origin.x + col * pixel_size`, `y = origin.y - row * pixel_size`. -/
def pixel_to_sinusoidal (o : ℚ × ℚ) (row col : ℕ) (pixel_size : ℚ) : ℚ × ℚ :=
  (o.1 + col * pixel_size, o.2 - row * pixel_size)

/-- The y coordinate of the k-th horizontal lattice line of the grid (the
northern edge of tile row k). -/
def latticeY (k : ℕ) : ℚ := SINUSOIDAL_Y_MAX - k * SINUSOIDAL_TILE_METERS

/-- The sphere radius as a real number. -/
noncomputable def RADIUS : ℝ := (SINUSOIDAL_SPHERE_RADIUS : ℝ)

/-- Rounding to `PRECISION` decimal digits, as applied by the projector to
degree outputs. -/
noncomputable def roundPrec (x : ℝ) : ℝ :=
  ((round (x * 10 ^ PRECISION) : ℤ) : ℝ) / 10 ^ PRECISION

/-- Radians to degrees. -/
noncomputable def degreesOfRadians (r : ℝ) : ℝ := r * 180 / π

/-- Degrees to radians. -/
noncomputable def radiansOfDegrees (d : ℝ) : ℝ := d * π / 180

/-- Modelled from the spec: `sinusoidal_to_geographic` of the missing
`stactools.modis.sinusoidal` module, the inverse sinusoidal projection:
`latitude = y / R` (radians), `longitude = x / (R * cos(latitude))`
(radians), both converted to degrees and rounded to `PRECISION` digits;
the result is the (longitude, latitude) Geographic Point. -/
noncomputable def sinusoidal_to_geographic (p : ℚ × ℚ) : ℝ × ℝ :=
  let lat : ℝ := (p.2 : ℝ) / RADIUS
  let lon : ℝ := (p.1 : ℝ) / (RADIUS * Real.cos lat)
  (roundPrec (degreesOfRadians lon), roundPrec (degreesOfRadians lat))

/-- Modelled from the spec: the forward sinusoidal projection used to state
the round-trip property, `x = R * lon * cos(lat)`, `y = R * lat` with the
geographic input in degrees. -/
noncomputable def geographic_to_sinusoidal (g : ℝ × ℝ) : ℝ × ℝ :=
  (RADIUS * radiansOfDegrees g.1 * Real.cos (radiansOfDegrees g.2),
   RADIUS * radiansOfDegrees g.2)

/-! ### Footprint Builder, modelled from the spec (section 4.2) -/

/-- A geographic corner of tile `(h, v)` at pixel `(r, c)` for a resolution
of `N` pixels per tile edge. -/
noncomputable def tile_corner (h v N r c : ℕ) : ℝ × ℝ :=
  sinusoidal_to_geographic
    (pixel_to_sinusoidal (tile_origin h v) r c (SINUSOIDAL_TILE_METERS / N))

/-- Modelled from the spec: the full-tile footprint ring, the four corner
Geographic Points northwest, northeast, southeast, southwest followed by a
closing copy of the first. -/
noncomputable def full_tile_ring (h v N : ℕ) : List (ℝ × ℝ) :=
  [tile_corner h v N 0 0, tile_corner h v N 0 N, tile_corner h v N N N,
   tile_corner h v N N 0, tile_corner h v N 0 0]

/-- Twice the signed area of a closed ring, by the shoelace formula over
consecutive points. -/
noncomputable def shoelaceSum (ring : List (ℝ × ℝ)) : ℝ :=
  (List.zipWith (fun p q => p.1 * q.2 - q.1 * p.2) ring ring.tail).sum

/-- The enclosed area of a closed ring. -/
noncomputable def ringArea (ring : List (ℝ × ℝ)) : ℝ := |shoelaceSum ring| / 2

/-- The bounding box (min lon, min lat, max lon, max lat) of a ring. -/
noncomputable def ringBbox (ring : List (ℝ × ℝ)) : ℝ × ℝ × ℝ × ℝ :=
  match ring with
  | [] => (0, 0, 0, 0)
  | p :: rest =>
    (rest.foldl (fun m q => min m q.1) p.1,
     rest.foldl (fun m q => min m q.2) p.2,
     rest.foldl (fun m q => max m q.1) p.1,
     rest.foldl (fun m q => max m q.2) p.2)

/-- Cross product orientation test of the hull algorithm. -/
def hullCross (o a b : ℚ × ℚ) : ℚ :=
  (a.1 - o.1) * (b.2 - o.2) - (a.2 - o.2) * (b.1 - o.1)

/-- Push one point onto a hull chain, popping points that would make the
chain turn the wrong way. -/
def hullAdd (p : ℚ × ℚ) : List (ℚ × ℚ) → List (ℚ × ℚ)
  | b :: a :: rest =>
    if hullCross a b p ≤ 0 then hullAdd p (a :: rest) else p :: b :: a :: rest
  | acc => p :: acc

/-- One monotone-chain half hull of a pre-sorted point list. -/
def halfHull (pts : List (ℚ × ℚ)) : List (ℚ × ℚ) :=
  pts.foldl (fun acc p => hullAdd p acc) []

/-- Lexicographic comparison of plane points used to sort hull input. -/
def pointLe (p q : ℚ × ℚ) : Bool :=
  decide (p.1 < q.1 ∨ (p.1 = q.1 ∧ p.2 ≤ q.2))

/-- Modelled from the spec: the lightweight 2-D convex hull of the valid
pixel coordinates (Andrew's monotone chain), returned as a closed ring. -/
def convex_hull_ring (pts : List (ℚ × ℚ)) : List (ℚ × ℚ) :=
  let sorted := (pts.dedup).mergeSort pointLe
  let lower := (halfHull sorted).reverse
  let upper := (halfHull sorted.reverse).reverse
  match lower.dropLast ++ upper.dropLast with
  | [] => []
  | q :: rest => q :: rest ++ [q]

/-- Modelled from the spec: the Valid-Data Mask as the list of (row, col)
coordinates of the pixels whose value differs from the band's fill value. -/
def valid_pixel_coords (band : List (List ℤ)) (fill : ℤ) : List (ℕ × ℕ) :=
  (band.enum.map (fun rrow =>
    rrow.2.enum.filterMap (fun cpx =>
      if cpx.2 ≠ fill then some (rrow.1, cpx.1) else none))).flatten

/-- The caller-owned item record whose geometry and bbox the Footprint
Builder replaces. -/
structure ItemRecord where
  geometry : Option (List (ℝ × ℝ))
  bbox : Option (ℝ × ℝ × ℝ × ℝ)

/-- Modelled from the spec (section 7): the error kinds of the Footprint
Builder; `EmptyFootprint` reports a valid-data mask with no set pixels,
distinct from a raster read failure. -/
inductive FootprintError where
  | EmptyFootprint : FootprintError
  | RasterReadFailure : FootprintError
deriving DecidableEq

/-- Modelled from the spec: raster-footprint mode of the missing
`stactools.modis.sinusoidal.update_geometry`.  It builds the Valid-Data
Mask, fails with `EmptyFootprint` when the mask has no set pixels, and
otherwise projects the convex hull of the valid pixel coordinates through
the pixel-to-geographic path and replaces the item's geometry and bbox with
the closed hull ring and its extrema. -/
noncomputable def update_geometry_model (band : List (List ℤ)) (fill : ℤ)
    (origin : ℚ × ℚ) (pixel_size : ℚ) : Except FootprintError ItemRecord :=
  let pix := valid_pixel_coords band fill
  if pix.isEmpty then Except.error FootprintError.EmptyFootprint
  else
    let hull := convex_hull_ring (pix.map (fun rc => ((rc.1 : ℚ), (rc.2 : ℚ))))
    let ring := hull.map (fun rc =>
      sinusoidal_to_geographic
        (origin.1 + rc.2 * pixel_size, origin.2 - rc.1 * pixel_size))
    Except.ok { geometry := some ring, bbox := some (ringBbox ring) }

/-- The caller-side effect of `update_geometry` on an item: on success the
item's geometry and bbox are replaced, on error the item is left untouched
and the error is reported. -/
noncomputable def apply_update_geometry (item : ItemRecord) (band : List (List ℤ))
    (fill : ℤ) (origin : ℚ × ℚ) (pixel_size : ℚ) :
    ItemRecord × Option FootprintError :=
  match update_geometry_model band fill origin pixel_size with
  | Except.error e => (item, some e)
  | Except.ok it => (it, none)

/-- The tile rectangle of tile `(h, v)` in the sinusoidal plane. -/
def tileRect (h v : ℕ) : Set (ℝ × ℝ) :=
  Set.Icc (((tile_origin h v).1 : ℝ)) (((tile_origin h v).1 : ℝ) + (SINUSOIDAL_TILE_METERS : ℝ)) ×ˢ
  Set.Icc (((tile_origin h v).2 : ℝ) - (SINUSOIDAL_TILE_METERS : ℝ)) (((tile_origin h v).2 : ℝ))

/-- The sinusoidal-plane positions of the valid pixels of a band, as a set
of real points. -/
def validSinusoidalPoints (band : List (List ℤ)) (fill : ℤ) (o : ℚ × ℚ)
    (pixel_size : ℚ) : Set (ℝ × ℝ) :=
  { q | ∃ rc ∈ valid_pixel_coords band fill,
      q = ((((pixel_to_sinusoidal o rc.1 rc.2 pixel_size).1 : ℚ) : ℝ),
           (((pixel_to_sinusoidal o rc.1 rc.2 pixel_size).2 : ℚ) : ℝ)) }

/-! ### Helper lemmas -/

/-- A row whose pixels all carry the fill value contributes no valid pixel
coordinates, whatever the enumeration offset. -/
theorem enumFrom_filterMap_fill (fill : ℤ) (r : ℕ) (row : List ℤ)
    (h : ∀ px ∈ row, px = fill) (n : ℕ) :
    (row.enumFrom n).filterMap
      (fun cpx => if cpx.2 ≠ fill then some (r, cpx.1) else none) = [] := by
  induction row generalizing n with
  | nil => rfl
  | cons a tl ih =>
    have ha : a = fill := h a (by simp)
    simp only [List.enumFrom, List.filterMap_cons, ha, ne_eq, not_true_eq_false,
      if_false, ite_self]
    exact ih (fun px hx => h px (by simp [hx])) (n + 1)

/-- A band whose pixels all carry the fill value has an empty valid-data
mask. -/
theorem valid_pixel_coords_of_all_fill (band : List (List ℤ)) (fill : ℤ)
    (h : ∀ row ∈ band, ∀ px ∈ row, px = fill) :
    valid_pixel_coords band fill = [] := by
  unfold valid_pixel_coords
  simp only [List.enum]
  suffices hgen : ∀ n, ((band.enumFrom n).map (fun rrow =>
      (List.enumFrom 0 rrow.2).filterMap (fun cpx =>
        if cpx.2 ≠ fill then some (rrow.1, cpx.1) else none))).flatten = [] by
    exact hgen 0
  intro n
  induction band generalizing n with
  | nil => rfl
  | cons row tl ih =>
    simp only [List.enumFrom, List.map_cons, List.flatten_cons]
    rw [enumFrom_filterMap_fill fill n row (h row (by simp)) 0]
    rw [List.nil_append, ih (fun r hr => h r (by simp [hr])) (n + 1)]

/-- Appending a schema URI only when missing preserves freedom from
duplicates. -/
theorem add_if_missing_nodup (u : String) (l : List String) (h : l.Nodup) :
    (add_if_missing u l).Nodup := by
  unfold add_if_missing
  split
  · exact h
  · rename_i hu
    exact List.Nodup.append h (List.nodup_singleton u)
      (by simp [List.disjoint_singleton, hu])

/-- Numeric value of the cast sphere radius. -/
theorem RADIUS_eq : RADIUS = (6371007.181 : ℝ) := by
  unfold RADIUS SINUSOIDAL_SPHERE_RADIUS
  norm_num

/-- The sphere radius is positive. -/
theorem RADIUS_pos : 0 < RADIUS := by
  rw [RADIUS_eq]; norm_num

/-- Numeric value of the cast grid maximum y. -/
theorem Y_MAX_cast : ((SINUSOIDAL_Y_MAX : ℚ) : ℝ) = 10007554.6779 := by
  unfold SINUSOIDAL_Y_MAX
  norm_num

/-- Numeric value of the cast grid minimum x. -/
theorem X_MIN_cast : ((SINUSOIDAL_X_MIN : ℚ) : ℝ) = -20015109.3558 := by
  unfold SINUSOIDAL_X_MIN
  norm_num

/-- Numeric value of the cast tile edge length. -/
theorem TILE_cast : ((SINUSOIDAL_TILE_METERS : ℚ) : ℝ) = 1111950.51977 := by
  unfold SINUSOIDAL_TILE_METERS
  norm_num

/-- Rounding to six decimal digits moves a value by at most half of the last
digit. -/
theorem abs_roundPrec_sub (z : ℝ) : |roundPrec z - z| ≤ 1 / 2000000 := by
  have h := abs_sub_round (z * 10 ^ 6 : ℝ)
  rw [abs_sub_comm] at h
  have h6 : (0 : ℝ) < 10 ^ 6 := by norm_num
  have hkey : roundPrec z - z =
      (((round (z * 10 ^ 6) : ℤ) : ℝ) - z * 10 ^ 6) / 10 ^ 6 := by
    unfold roundPrec PRECISION
    ring
  rw [hkey, abs_div, abs_of_pos h6, div_le_iff₀ h6]
  nlinarith [h]

/-- Values at least one apart round to distinct values, in order. -/
theorem roundPrec_gap {a b : ℝ} (hab : a + 1 ≤ b) : roundPrec a < roundPrec b := by
  have ha := abs_le.mp (abs_roundPrec_sub a)
  have hb := abs_le.mp (abs_roundPrec_sub b)
  linarith [ha.1, ha.2, hb.1, hb.2]

/-- The difference of two rounded values stays within one last digit of the
true difference. -/
theorem roundPrec_sub_close (a b : ℝ) :
    |(roundPrec b - roundPrec a) - (b - a)| ≤ 1 / 1000000 := by
  have ha := abs_le.mp (abs_roundPrec_sub a)
  have hb := abs_le.mp (abs_roundPrec_sub b)
  rw [abs_le]
  constructor <;> linarith [ha.1, ha.2, hb.1, hb.2]

/-- Converting to degrees, rounding to six digits and converting back to
radians moves an angle by at most `π / 360000000` radians. -/
theorem rad_roundPrec_deg (t : ℝ) :
    |radiansOfDegrees (roundPrec (degreesOfRadians t)) - t| ≤ π / 360000000 := by
  have hd := abs_roundPrec_sub (t * 180 / π)
  have hne : (π : ℝ) ≠ 0 := Real.pi_ne_zero
  have hkey : radiansOfDegrees (roundPrec (degreesOfRadians t)) - t =
      (roundPrec (t * 180 / π) - t * 180 / π) * π / 180 := by
    unfold radiansOfDegrees degreesOfRadians
    field_simp
    ring
  rw [hkey, abs_div, abs_mul, abs_of_pos Real.pi_pos,
    abs_of_pos (by norm_num : (0 : ℝ) < 180)]
  have hmul := mul_le_mul_of_nonneg_right hd Real.pi_pos.le
  rw [div_le_div_iff₀ (by norm_num) (by norm_num : (0 : ℝ) < 360000000)]
  nlinarith [hmul]

/-- The cosine is 1-Lipschitz. -/
theorem abs_cos_sub_cos_le (a b : ℝ) : |Real.cos a - Real.cos b| ≤ |a - b| := by
  rw [Real.cos_sub_cos, abs_mul, abs_mul]
  have h1 : |Real.sin ((a + b) / 2)| ≤ 1 :=
    abs_le.mpr ⟨Real.neg_one_le_sin _, Real.sin_le_one _⟩
  have h2 : |Real.sin ((a - b) / 2)| ≤ |(a - b) / 2| := Real.abs_sin_le_abs
  have h3 : |(a - b) / 2| = |a - b| / 2 := by
    rw [abs_div, abs_of_pos (by norm_num : (0 : ℝ) < 2)]
  have h4 : |(-2 : ℝ)| = 2 := by norm_num
  rw [h4]
  nlinarith [abs_nonneg (Real.sin ((a + b) / 2)), abs_nonneg (Real.sin ((a - b) / 2)),
    abs_nonneg (a - b)]

/-- Longitude component of the inverse projection. -/
theorem s2g_fst (p : ℚ × ℚ) :
    (sinusoidal_to_geographic p).1 =
      roundPrec (degreesOfRadians
        ((p.1 : ℝ) / (RADIUS * Real.cos ((p.2 : ℝ) / RADIUS)))) := rfl

/-- Latitude component of the inverse projection. -/
theorem s2g_snd (p : ℚ × ℚ) :
    (sinusoidal_to_geographic p).2 =
      roundPrec (degreesOfRadians ((p.2 : ℝ) / RADIUS)) := rfl

/-- The latitude span of one tile, in degrees: between 9 and 11. -/
theorem K_bounds :
    9 ≤ 180 * ((SINUSOIDAL_TILE_METERS : ℚ) : ℝ) / (π * RADIUS) ∧
    180 * ((SINUSOIDAL_TILE_METERS : ℚ) : ℝ) / (π * RADIUS) ≤ 11 := by
  rw [TILE_cast, RADIUS_eq]
  have hpiR : (0 : ℝ) < π * 6371007.181 := by positivity
  constructor
  · rw [le_div_iff₀ hpiR]
    nlinarith [Real.pi_lt_d2]
  · rw [div_le_iff₀ hpiR]
    nlinarith [Real.pi_gt_d2]

/-- Two longitudes one tile width apart at the same latitude differ, in
degrees, by the tile span divided by the cosine. -/
theorem lon_deg_diff (x c : ℝ) (hc : c ≠ 0) :
    degreesOfRadians ((x + ((SINUSOIDAL_TILE_METERS : ℚ) : ℝ)) / (RADIUS * c)) -
      degreesOfRadians (x / (RADIUS * c)) =
    180 * ((SINUSOIDAL_TILE_METERS : ℚ) : ℝ) / (π * RADIUS) / c := by
  unfold degreesOfRadians
  have hR : RADIUS ≠ 0 := RADIUS_pos.ne'
  have hpi : (π : ℝ) ≠ 0 := Real.pi_ne_zero
  field_simp
  ring

/-- Two latitudes one tile height apart differ, in degrees, by the tile
span. -/
theorem lat_deg_diff (y : ℝ) :
    degreesOfRadians (y / RADIUS) -
      degreesOfRadians ((y - ((SINUSOIDAL_TILE_METERS : ℚ) : ℝ)) / RADIUS) =
    180 * ((SINUSOIDAL_TILE_METERS : ℚ) : ℝ) / (π * RADIUS) := by
  unfold degreesOfRadians
  have hR : RADIUS ≠ 0 := RADIUS_pos.ne'
  have hpi : (π : ℝ) ≠ 0 := Real.pi_ne_zero
  field_simp
  ring

/-- The rounded latitudes of two lattice lines one tile apart are strictly
ordered south to north. -/
theorem lat_roundPrec_lt (y : ℝ) :
    roundPrec (degreesOfRadians ((y - ((SINUSOIDAL_TILE_METERS : ℚ) : ℝ)) / RADIUS)) <
      roundPrec (degreesOfRadians (y / RADIUS)) := by
  apply roundPrec_gap
  have hdiff := lat_deg_diff y
  linarith [K_bounds.1]

/-- The rounded longitudes of the two ends of a tile edge at a fixed
latitude with nonzero cosine are distinct. -/
theorem lon_pair_ne (x c : ℝ) (hc : c ≠ 0) (hc1 : |c| ≤ 1) :
    roundPrec (degreesOfRadians (x / (RADIUS * c))) ≠
      roundPrec (degreesOfRadians
        ((x + ((SINUSOIDAL_TILE_METERS : ℚ) : ℝ)) / (RADIUS * c))) := by
  have hdiff := lon_deg_diff x c hc
  have hK := K_bounds
  rcases hc.lt_or_lt with hneg | hpos
  · have hcle : -c ≤ 1 := by rw [abs_of_neg hneg] at hc1; linarith
    have h9 : 180 * ((SINUSOIDAL_TILE_METERS : ℚ) : ℝ) / (π * RADIUS) / c ≤ -9 := by
      rw [div_le_iff_of_neg hneg]
      nlinarith [hK.1]
    exact (roundPrec_gap (by linarith [hdiff, h9])).ne'
  · have hcle : c ≤ 1 := by rw [abs_of_pos hpos] at hc1; linarith
    have h9 : 9 ≤ 180 * ((SINUSOIDAL_TILE_METERS : ℚ) : ℝ) / (π * RADIUS) / c := by
      rw [le_div_iff₀ hpos]
      nlinarith [hK.1]
    exact (roundPrec_gap (by linarith [hdiff, h9])).ne

/-- At lattice rows 1 through 17 the latitude stays within ±80.1°, so its
cosine is at least 1/40. -/
theorem cos_latticeY_mid (k : ℕ) (hk1 : 1 ≤ k) (hk2 : k ≤ 17) :
    1 / 40 ≤ Real.cos (((latticeY k : ℚ) : ℝ) / RADIUS) := by
  have hc : ((latticeY k : ℚ) : ℝ) = 10007554.6779 - (k : ℝ) * 1111950.51977 := by
    unfold latticeY
    push_cast
    rw [Y_MAX_cast, TILE_cast]
  have hk1R : (1 : ℝ) ≤ (k : ℝ) := by exact_mod_cast hk1
  have hk2R : ((k : ℝ)) ≤ 17 := by exact_mod_cast hk2
  have habs : |((latticeY k : ℚ) : ℝ)| ≤ 8895605 := by
    rw [hc, abs_le]
    constructor <;> nlinarith
  have hu : |((latticeY k : ℚ) : ℝ) / RADIUS| ≤ 13963 / 10000 := by
    rw [abs_div, abs_of_pos RADIUS_pos, div_le_iff₀ RADIUS_pos, RADIUS_eq]
    nlinarith [habs]
  have h0 : 1 - (((latticeY k : ℚ) : ℝ) / RADIUS) ^ 2 / 2 ≤
      Real.cos (((latticeY k : ℚ) : ℝ) / RADIUS) := Real.one_sub_sq_div_two_le_cos
  nlinarith [hu, abs_nonneg (((latticeY k : ℚ) : ℝ) / RADIUS),
    sq_abs (((latticeY k : ℚ) : ℝ) / RADIUS)]

/-- The top lattice line sits just north of 90° latitude: its cosine is
negative but no smaller than -3·10⁻¹³. -/
theorem cos_latticeY_top :
    Real.cos (((latticeY 0 : ℚ) : ℝ) / RADIUS) < 0 ∧
    -(3 / 10 ^ 13) ≤ Real.cos (((latticeY 0 : ℚ) : ℝ) / RADIUS) := by
  have hc : ((latticeY 0 : ℚ) : ℝ) / RADIUS = 10007554.6779 / 6371007.181 := by
    rw [RADIUS_eq]
    unfold latticeY
    push_cast
    rw [Y_MAX_cast, TILE_cast]
    norm_num
  rw [hc]
  have hepos : 0 < 10007554.6779 / 6371007.181 - π / 2 := by
    have h2c : (3.14159265358979323847 : ℝ) ≤ 2 * (10007554.6779 / 6371007.181) := by
      norm_num
    linarith [Real.pi_lt_d20]
  have heub : 10007554.6779 / 6371007.181 - π / 2 ≤ 3 / 10 ^ 13 := by
    have h2c : 2 * ((10007554.6779 : ℝ) / 6371007.181) - 3.14159265358979323846 ≤
        2 * (3 / 10 ^ 13) := by norm_num
    linarith [Real.pi_gt_d20]
  have hcoseq : Real.cos (10007554.6779 / 6371007.181 : ℝ) =
      -Real.sin (10007554.6779 / 6371007.181 - π / 2) := by
    have hue : (10007554.6779 / 6371007.181 : ℝ) =
        π / 2 + (10007554.6779 / 6371007.181 - π / 2) := by ring
    rw [hue, Real.cos_add, Real.cos_pi_div_two, Real.sin_pi_div_two]
    ring
  have hsinpos : 0 < Real.sin (10007554.6779 / 6371007.181 - π / 2) :=
    Real.sin_pos_of_pos_of_lt_pi hepos (by linarith [Real.pi_gt_three])
  have hsinlt : Real.sin (10007554.6779 / 6371007.181 - π / 2) <
      10007554.6779 / 6371007.181 - π / 2 := Real.sin_lt hepos
  constructor
  · rw [hcoseq]; linarith
  · rw [hcoseq]; linarith

/-- The bottom lattice line sits just south of -90° latitude: its cosine is
negative but no smaller than -10⁻¹⁰. -/
theorem cos_latticeY_bot :
    Real.cos (((latticeY 18 : ℚ) : ℝ) / RADIUS) < 0 ∧
    -(1 / 10 ^ 10) ≤ Real.cos (((latticeY 18 : ℚ) : ℝ) / RADIUS) := by
  have hc : ((latticeY 18 : ℚ) : ℝ) / RADIUS = -(10007554.67796 / 6371007.181) := by
    rw [RADIUS_eq]
    unfold latticeY
    push_cast
    rw [Y_MAX_cast, TILE_cast]
    norm_num
  rw [hc, Real.cos_neg]
  have hepos : 0 < 10007554.67796 / 6371007.181 - π / 2 := by
    have h2c : (3.14159265358979323847 : ℝ) ≤ 2 * (10007554.67796 / 6371007.181) := by
      norm_num
    linarith [Real.pi_lt_d20]
  have heub : 10007554.67796 / 6371007.181 - π / 2 ≤ 1 / 10 ^ 10 := by
    have h2c : 2 * ((10007554.67796 : ℝ) / 6371007.181) - 3.14159265358979323846 ≤
        2 * (1 / 10 ^ 10) := by norm_num
    linarith [Real.pi_gt_d20]
  have hcoseq : Real.cos (10007554.67796 / 6371007.181 : ℝ) =
      -Real.sin (10007554.67796 / 6371007.181 - π / 2) := by
    have hue : (10007554.67796 / 6371007.181 : ℝ) =
        π / 2 + (10007554.67796 / 6371007.181 - π / 2) := by ring
    rw [hue, Real.cos_add, Real.cos_pi_div_two, Real.sin_pi_div_two]
    ring
  have hsinpos : 0 < Real.sin (10007554.67796 / 6371007.181 - π / 2) :=
    Real.sin_pos_of_pos_of_lt_pi hepos (by linarith [Real.pi_gt_three])
  have hsinlt : Real.sin (10007554.67796 / 6371007.181 - π / 2) <
      10007554.67796 / 6371007.181 - π / 2 := Real.sin_lt hepos
  constructor
  · rw [hcoseq]; linarith
  · rw [hcoseq]; linarith

/-- No lattice latitude of the 18-row grid has vanishing cosine. -/
theorem cos_latticeY_ne_zero (k : ℕ) (hk : k ≤ 18) :
    Real.cos (((latticeY k : ℚ) : ℝ) / RADIUS) ≠ 0 := by
  rcases Nat.eq_zero_or_pos k with hk0 | hk1
  · subst hk0
    exact cos_latticeY_top.1.ne
  · rcases eq_or_lt_of_le hk with hk18 | hk17
    · subst hk18
      exact cos_latticeY_bot.1.ne
    · have hge := cos_latticeY_mid k hk1 (by omega)
      exact (lt_of_lt_of_le (by norm_num) hge).ne'

/-- For every valid tile row, the two signed tile widths in degrees at its
north and south edges have a sum of magnitude at least one degree. -/
theorem width_sum_ge_one (v : ℕ) (hv : v ≤ 17) :
    1 ≤ |180 * ((SINUSOIDAL_TILE_METERS : ℚ) : ℝ) / (π * RADIUS) /
          Real.cos (((latticeY v : ℚ) : ℝ) / RADIUS) +
        180 * ((SINUSOIDAL_TILE_METERS : ℚ) : ℝ) / (π * RADIUS) /
          Real.cos (((latticeY (v + 1) : ℚ) : ℝ) / RADIUS)| := by
  have hK9 := K_bounds.1
  have hK11 := K_bounds.2
  have hmid_w : ∀ c : ℝ, 1 / 40 ≤ c → c ≤ 1 →
      9 ≤ 180 * ((SINUSOIDAL_TILE_METERS : ℚ) : ℝ) / (π * RADIUS) / c ∧
      180 * ((SINUSOIDAL_TILE_METERS : ℚ) : ℝ) / (π * RADIUS) / c ≤ 440 := by
    intro c h40 h1
    have hcpos : (0 : ℝ) < c := lt_of_lt_of_le (by norm_num) h40
    constructor
    · rw [le_div_iff₀ hcpos]
      nlinarith
    · rw [div_le_iff₀ hcpos]
      nlinarith
  rcases Nat.eq_zero_or_pos v with hv0 | hv1
  · subst hv0
    simp only [Nat.zero_add]
    have htop := cos_latticeY_top
    have hS := cos_latticeY_mid 1 le_rfl (by norm_num)
    have hWS := hmid_w _ hS (Real.cos_le_one _)
    have hWN : 180 * ((SINUSOIDAL_TILE_METERS : ℚ) : ℝ) / (π * RADIUS) /
        Real.cos (((latticeY 0 : ℚ) : ℝ) / RADIUS) ≤ -(3 * 10 ^ 13) := by
      rw [div_le_iff_of_neg htop.1]
      nlinarith [htop.2]
    have hsum : 180 * ((SINUSOIDAL_TILE_METERS : ℚ) : ℝ) / (π * RADIUS) /
          Real.cos (((latticeY 0 : ℚ) : ℝ) / RADIUS) +
        180 * ((SINUSOIDAL_TILE_METERS : ℚ) : ℝ) / (π * RADIUS) /
          Real.cos (((latticeY 1 : ℚ) : ℝ) / RADIUS) ≤ -1 := by
      linarith [hWS.2]
    calc (1 : ℝ) ≤ -(180 * ((SINUSOIDAL_TILE_METERS : ℚ) : ℝ) / (π * RADIUS) /
          Real.cos (((latticeY 0 : ℚ) : ℝ) / RADIUS) +
        180 * ((SINUSOIDAL_TILE_METERS : ℚ) : ℝ) / (π * RADIUS) /
          Real.cos (((latticeY 1 : ℚ) : ℝ) / RADIUS)) := by linarith
    _ ≤ _ := neg_le_abs _
  · rcases eq_or_lt_of_le hv with hv17 | hvlt
    · rw [hv17]
      have h18 : (17 : ℕ) + 1 = 18 := rfl
      rw [h18]
      have hbot := cos_latticeY_bot
      have hN := cos_latticeY_mid 17 (by norm_num) le_rfl
      have hWN := hmid_w _ hN (Real.cos_le_one _)
      have hWS : 180 * ((SINUSOIDAL_TILE_METERS : ℚ) : ℝ) / (π * RADIUS) /
          Real.cos (((latticeY 18 : ℚ) : ℝ) / RADIUS) ≤ -(9 * 10 ^ 10) := by
        rw [div_le_iff_of_neg hbot.1]
        nlinarith [hbot.2]
      have hsum : 180 * ((SINUSOIDAL_TILE_METERS : ℚ) : ℝ) / (π * RADIUS) /
            Real.cos (((latticeY 17 : ℚ) : ℝ) / RADIUS) +
          180 * ((SINUSOIDAL_TILE_METERS : ℚ) : ℝ) / (π * RADIUS) /
            Real.cos (((latticeY 18 : ℚ) : ℝ) / RADIUS) ≤ -1 := by
        linarith [hWN.2]
      calc (1 : ℝ) ≤ -(180 * ((SINUSOIDAL_TILE_METERS : ℚ) : ℝ) / (π * RADIUS) /
            Real.cos (((latticeY 17 : ℚ) : ℝ) / RADIUS) +
          180 * ((SINUSOIDAL_TILE_METERS : ℚ) : ℝ) / (π * RADIUS) /
            Real.cos (((latticeY 18 : ℚ) : ℝ) / RADIUS)) := by linarith
      _ ≤ _ := neg_le_abs _
    · have hN := cos_latticeY_mid v hv1 (by omega)
      have hS := cos_latticeY_mid (v + 1) (by omega) (by omega)
      have hWN := hmid_w _ hN (Real.cos_le_one _)
      have hWS := hmid_w _ hS (Real.cos_le_one _)
      calc (1 : ℝ) ≤ 180 * ((SINUSOIDAL_TILE_METERS : ℚ) : ℝ) / (π * RADIUS) /
            Real.cos (((latticeY v : ℚ) : ℝ) / RADIUS) +
          180 * ((SINUSOIDAL_TILE_METERS : ℚ) : ℝ) / (π * RADIUS) /
            Real.cos (((latticeY (v + 1) : ℚ) : ℝ) / RADIUS) := by
            linarith [hWN.1, hWS.1]
      _ ≤ _ := le_abs_self _

/-- Folding a repeated first element back into a four-way minimum changes
nothing. -/
theorem fold_min_close (a b c d : ℝ) :
    min (min (min (min a b) c) d) a = min (min (min a b) c) d :=
  min_eq_left ((min_le_left _ _).trans ((min_le_left _ _).trans (min_le_left _ _)))

/-- Folding a repeated first element back into a four-way maximum changes
nothing. -/
theorem fold_max_close (a b c d : ℝ) :
    max (max (max (max a b) c) d) a = max (max (max a b) c) d :=
  max_eq_left ((le_max_left _ _).trans ((le_max_left _ _).trans (le_max_left _ _)))

/-- The inverse projection of an explicit rational pair, componentwise. -/
theorem s2g_pair (a b : ℚ) :
    sinusoidal_to_geographic (a, b) =
      (roundPrec (degreesOfRadians ((a : ℝ) / (RADIUS * Real.cos ((b : ℝ) / RADIUS)))),
       roundPrec (degreesOfRadians ((b : ℝ) / RADIUS))) := rfl

/-- Four corner points with distinct rounded longitudes along each latitude
row and distinct rounded latitudes between the rows are pairwise distinct. -/
theorem ring_corners_pairwise (a b c2 d t s : ℝ) (hab : a ≠ b) (hdc : d ≠ c2)
    (hts : s < t) :
    List.Pairwise (· ≠ ·) ([((a, t) : ℝ × ℝ), (b, t), (c2, s), (d, s)]) := by
  have htsne : t ≠ s := hts.ne'
  refine List.Pairwise.cons ?_ (List.Pairwise.cons ?_
    (List.Pairwise.cons ?_ (List.pairwise_singleton _ _)))
  · intro p hp
    simp only [List.mem_cons, List.mem_singleton, List.not_mem_nil, or_false] at hp
    rcases hp with rfl | rfl | rfl
    · exact fun hEq => hab (congrArg Prod.fst hEq)
    · exact fun hEq => htsne (congrArg Prod.snd hEq)
    · exact fun hEq => htsne (congrArg Prod.snd hEq)
  · intro p hp
    simp only [List.mem_cons, List.mem_singleton, List.not_mem_nil, or_false] at hp
    rcases hp with rfl | rfl
    · exact fun hEq => htsne (congrArg Prod.snd hEq)
    · exact fun hEq => htsne (congrArg Prod.snd hEq)
  · intro p hp
    simp only [List.mem_singleton] at hp
    subst hp
    exact fun hEq => hdc.symm (congrArg Prod.fst hEq)

/-- The shoelace sum of the closed four-corner ring does not vanish when the
rounded latitudes differ and the two signed widths have a sum of magnitude
at least one degree. -/
theorem ring_shoelace_ne (a b c2 d t s wN wS : ℝ) (hts : s < t)
    (hw : 1 ≤ |wN + wS|)
    (hba : |(b - a) - wN| ≤ 1 / 1000000)
    (hdc : |(c2 - d) - wS| ≤ 1 / 1000000) :
    shoelaceSum [((a, t) : ℝ × ℝ), (b, t), (c2, s), (d, s), (a, t)] ≠ 0 := by
  have hform : shoelaceSum [((a, t) : ℝ × ℝ), (b, t), (c2, s), (d, s), (a, t)]
      = (t - s) * ((a - b) + (d - c2)) := by
    unfold shoelaceSum
    simp only [List.tail_cons, List.zipWith_cons_cons, List.zipWith_nil_right,
      List.sum_cons, List.sum_nil]
    ring
  rw [hform]
  apply mul_ne_zero (sub_ne_zero.mpr hts.ne')
  intro h0
  have h1 := abs_le.mp hba
  have h2 := abs_le.mp hdc
  have habs2 : |wN + wS| ≤ 2 / 1000000 := abs_le.mpr ⟨by linarith, by linarith⟩
  linarith [hw, habs2]

/-- The bounding box of a closed four-corner ring is the componentwise
extrema of its four corners. -/
theorem ringBbox_closed_ring (A B C D : ℝ × ℝ) :
    ringBbox [A, B, C, D, A] =
      (min (min (min A.1 B.1) C.1) D.1, min (min (min A.2 B.2) C.2) D.2,
       max (max (max A.1 B.1) C.1) D.1, max (max (max A.2 B.2) C.2) D.2) := by
  simp only [ringBbox, List.foldl_cons, List.foldl_nil]
  rw [fold_min_close, fold_min_close, fold_max_close, fold_max_close]

/-! ### Claim theorems -/

/-- C1: for every call to `create_item` with `raster_footprint=True` and
`create_cogs=False`, the call raises a `ValueError` and no geometry update is
performed (the error result carries no item and no update flag);
`update_geometry` is invoked on the created item if and only if both
`raster_footprint` and `create_cogs` are `True`. -/
theorem c1_create_item_guard :
    (∀ (Item : Type) (it : Item) (u : Item → Item),
        create_item Item it u false true = Except.error StacError.valueError) ∧
    (∀ (Item : Type) (it : Item) (u : Item → Item) (cc rf : Bool),
        (∃ r, create_item Item it u cc rf = Except.ok (r, true)) ↔
          (rf = true ∧ cc = true)) := by
  constructor
  · intro Item it u; rfl
  · intro Item it u cc rf
    cases cc <;> cases rf <;> simp [create_item]

/-- C10: `create_item_from_cogs` invokes `update_geometry` on the created
item if and only if `raster_footprint` is `True`; it has no `create_cogs`
precondition check, so it never returns the `ValueError` that guards the
option in `create_item`; and with `raster_footprint=False` the result is
exactly the builder's item, untouched. -/
theorem c10_create_item_from_cogs :
    ∀ (Item : Type) (it : Item) (u : Item → Item) (rf : Bool),
      ((∃ r, create_item_from_cogs Item it u rf = Except.ok (r, true)) ↔ rf = true) ∧
      (∀ e, create_item_from_cogs Item it u rf ≠ Except.error e) ∧
      (rf = false → create_item_from_cogs Item it u rf = Except.ok (it, false)) := by
  intro Item it u rf
  cases rf <;> simp [create_item_from_cogs]

/-- C5: the sinusoidal grid constants carry exactly the fixed values
6371007.18100 m (sphere radius), 1111950.51977 m (tile edge),
-20015109.3558 m (grid minimum X) and 10007554.6779 m (grid maximum Y), each
with a 12-significant-digit significand; being Lean definitions of type ℚ
they are immutable process-wide values no operation can modify. -/
theorem c5_constants :
    (SINUSOIDAL_SPHERE_RADIUS = 637100718100 / 10 ^ 5 ∧
      (10 ^ 11 : ℕ) ≤ 637100718100 ∧ (637100718100 : ℕ) < 10 ^ 12) ∧
    (SINUSOIDAL_TILE_METERS = 111195051977 / 10 ^ 5 ∧
      (10 ^ 11 : ℕ) ≤ 111195051977 ∧ (111195051977 : ℕ) < 10 ^ 12) ∧
    (SINUSOIDAL_X_MIN = -(200151093558 / 10 ^ 4) ∧
      (10 ^ 11 : ℕ) ≤ 200151093558 ∧ (200151093558 : ℕ) < 10 ^ 12) ∧
    (SINUSOIDAL_Y_MAX = 100075546779 / 10 ^ 4 ∧
      (10 ^ 11 : ℕ) ≤ 100075546779 ∧ (100075546779 : ℕ) < 10 ^ 12) := by
  refine ⟨⟨?_, by norm_num⟩, ⟨?_, by norm_num⟩, ⟨?_, by norm_num⟩, ⟨?_, by norm_num⟩⟩ <;>
    norm_num [SINUSOIDAL_SPHERE_RADIUS, SINUSOIDAL_TILE_METERS, SINUSOIDAL_X_MIN,
      SINUSOIDAL_Y_MAX]

/-- C8: every product entry of the collection footprint metadata table has a
`sin_tile_pixels` resolution of exactly 1200, 2400 or 4800 pixels per tile
edge. -/
theorem c8_resolutions :
    ∀ p ∈ COLLECTION_FOOTPRINT_METADATA,
      p.2.sin_tile_pixels = 1200 ∨ p.2.sin_tile_pixels = 2400 ∨
        p.2.sin_tile_pixels = 4800 := by
  decide

/-- Witness for C8 at the first table entry. -/
theorem c8_resolutions_witness :
    (("11A1", (⟨1200, some ["LST_Day_1km", "LST_Night_1km", "Emis_31", "Emis_32"],
        none⟩ : FootprintMeta)) ∈ COLLECTION_FOOTPRINT_METADATA) ∧
    ((1200 : ℕ) = 1200 ∨ (1200 : ℕ) = 2400 ∨ (1200 : ℕ) = 4800) :=
  ⟨by decide, c8_resolutions ("11A1", ⟨1200, some ["LST_Day_1km", "LST_Night_1km",
    "Emis_31", "Emis_32"], none⟩) (by decide)⟩

/-- C4: `tile_origin` is a deterministic function of the grid indices with
value `(GRID_X_MIN + h * TILE_METERS, GRID_Y_MAX - v * TILE_METERS)`, its
values step across the fixed lattice by exactly `TILE_METERS` in each grid
direction, and it is total on all of ℕ × ℕ: out-of-range indices are not
rejected. -/
theorem c4_tile_origin (h v : ℕ) :
    tile_origin h v = (SINUSOIDAL_X_MIN + h * SINUSOIDAL_TILE_METERS,
      SINUSOIDAL_Y_MAX - v * SINUSOIDAL_TILE_METERS) ∧
    (tile_origin (h + 1) v).1 = (tile_origin h v).1 + SINUSOIDAL_TILE_METERS ∧
    (tile_origin h (v + 1)).2 = (tile_origin h v).2 - SINUSOIDAL_TILE_METERS := by
  refine ⟨rfl, ?_, ?_⟩ <;> simp only [tile_origin] <;> push_cast <;> ring

/-- C2: for every raster band whose valid-data mask has zero valid pixels
(all pixels equal the fill value), raster-footprint mode reports the
`EmptyFootprint` condition, produces no polygon at all (in particular no
degenerate zero-area one), and leaves the item's geometry and bounding box
unchanged. -/
theorem c2_empty_footprint (item : ItemRecord) (band : List (List ℤ)) (fill : ℤ)
    (origin : ℚ × ℚ) (pixel_size : ℚ)
    (hfill : ∀ row ∈ band, ∀ px ∈ row, px = fill) :
    apply_update_geometry item band fill origin pixel_size =
      (item, some FootprintError.EmptyFootprint) := by
  unfold apply_update_geometry update_geometry_model
  rw [valid_pixel_coords_of_all_fill band fill hfill]
  rfl

/-- Witness for C2 at a concrete 2×2 all-fill band. -/
theorem c2_empty_footprint_witness :
    (∀ row ∈ [[(7 : ℤ), 7], [7, 7]], ∀ px ∈ row, px = 7) ∧
    apply_update_geometry ⟨none, none⟩ [[(7 : ℤ), 7], [7, 7]] 7 (0, 0) 1 =
      (⟨none, none⟩, some FootprintError.EmptyFootprint) :=
  ⟨by decide, c2_empty_footprint ⟨none, none⟩ [[(7 : ℤ), 7], [7, 7]] 7 (0, 0) 1
    (by decide)⟩

/-- C9 counterexample: for a product with one band carrying `raster:bands`
and no publications, the returned `stac_extensions` list is the sorted
deduplicated raster URI followed by the item-assets URI that
`ItemAssetsExtension.ext(collection, add_if_missing=True)` appends after the
sort of stac.py line 79; the raster URI sorts after the item-assets URI, so
the final list is not sorted. -/
theorem c9_counterexample :
    ¬ (List.Sorted (· ≤ ·)
        (create_collection_stac_extensions [⟨false, true, false⟩] false) ∧
       (create_collection_stac_extensions [⟨false, true, false⟩] false).Nodup) := by
  have hsort : (([RASTER_SCHEMA_URI] : List String)).mergeSort = [RASTER_SCHEMA_URI] :=
    List.mergeSort_eq_self (List.sorted_singleton _)
  have hc : create_collection_stac_extensions [⟨false, true, false⟩] false =
      [RASTER_SCHEMA_URI, ITEM_ASSETS_SCHEMA_URI] := by
    unfold create_collection_stac_extensions
    have hb : band_extension_uris [⟨false, true, false⟩] = [RASTER_SCHEMA_URI] := rfl
    rw [hb]
    have hd : ([RASTER_SCHEMA_URI] : List String).dedup = [RASTER_SCHEMA_URI] := by
      simp
    rw [hd, hsort]
    simp only [Bool.false_eq_true, if_false]
    unfold add_if_missing
    rw [if_neg (by decide)]
    rfl
  rintro ⟨hs, -⟩
  rw [hc, List.sorted_cons] at hs
  have hle : RASTER_SCHEMA_URI ≤ ITEM_ASSETS_SCHEMA_URI := hs.1 _ (by simp)
  revert hle
  simp only [String.le_iff_toList_le, RASTER_SCHEMA_URI, ITEM_ASSETS_SCHEMA_URI]
  decide

/-- C9 amended: the extension list assembled at stac.py lines 78-79 (after
`list(set(...))` and `.sort()`, before the item-assets and scientific
extensions are attached) is sorted in ascending order and duplicate-free,
and the final `stac_extensions` list of the returned collection is still
duplicate-free, though not sorted in general. -/
theorem c9_stac_extensions_amended (bands : List BandFragment) (has_sci : Bool) :
    List.Sorted (· ≤ ·) (((band_extension_uris bands).dedup).mergeSort) ∧
    (((band_extension_uris bands).dedup).mergeSort).Nodup ∧
    (create_collection_stac_extensions bands has_sci).Nodup := by
  have hnd : (((band_extension_uris bands).dedup).mergeSort).Nodup :=
    (List.mergeSort_perm _ _).nodup_iff.mpr (List.nodup_dedup _)
  refine ⟨List.sorted_mergeSort' _, hnd, ?_⟩
  unfold create_collection_stac_extensions
  cases has_sci
  · simpa using add_if_missing_nodup _ _ hnd
  · simpa using add_if_missing_nodup _ _ (add_if_missing_nodup _ _ hnd)

/-- C3 counterexample: at the northwest corner pixel of tile (0, 0) — a point
within that tile's footprint — the inverse projection rounds the latitude to
exactly 90.000000°, the forward reprojection therefore multiplies by
cos(90°) = 0 and yields x = 0, while the original sinusoidal x is
-20015109.3558 m: the round trip misses the original coordinate by more than
20000 km, far beyond the 6-decimal rounding tolerance. -/
theorem c3_counterexample :
    (geographic_to_sinusoidal (sinusoidal_to_geographic
        (pixel_to_sinusoidal (tile_origin 0 0) 0 0 (SINUSOIDAL_TILE_METERS / 1200)))).1 = 0 ∧
    20000000 < |(geographic_to_sinusoidal (sinusoidal_to_geographic
        (pixel_to_sinusoidal (tile_origin 0 0) 0 0 (SINUSOIDAL_TILE_METERS / 1200)))).1 -
      ((pixel_to_sinusoidal (tile_origin 0 0) 0 0 (SINUSOIDAL_TILE_METERS / 1200)).1 : ℝ)| := by
  have hp : pixel_to_sinusoidal (tile_origin 0 0) 0 0 (SINUSOIDAL_TILE_METERS / 1200)
      = (SINUSOIDAL_X_MIN, SINUSOIDAL_Y_MAX) := by
    simp [pixel_to_sinusoidal, tile_origin]
  rw [hp]
  have hpos : (0 : ℝ) < π := Real.pi_pos
  have hA : degreesOfRadians (((SINUSOIDAL_Y_MAX : ℚ) : ℝ) / RADIUS) * 10 ^ 6
      = 10007554.6779 * 180 * 10 ^ 6 / 6371007.181 / π := by
    unfold degreesOfRadians
    rw [Y_MAX_cast, RADIUS_eq]
    field_simp
  have h1 : 10007554.6779 * 180 * 10 ^ 6 / 6371007.181 / π < 90000000.5 := by
    rw [div_lt_iff₀ hpos]
    nlinarith [Real.pi_gt_d20]
  have h2 : (89999999.5 : ℝ) ≤ 10007554.6779 * 180 * 10 ^ 6 / 6371007.181 / π := by
    rw [le_div_iff₀ hpos]
    nlinarith [Real.pi_lt_d20]
  have hlat : roundPrec (degreesOfRadians (((SINUSOIDAL_Y_MAX : ℚ) : ℝ) / RADIUS)) = 90 := by
    unfold roundPrec PRECISION
    have hr : round (degreesOfRadians (((SINUSOIDAL_Y_MAX : ℚ) : ℝ) / RADIUS) * 10 ^ 6)
        = 90000000 := by
      rw [round_eq, Int.floor_eq_iff]
      constructor
      · push_cast
        rw [hA]
        linarith
      · push_cast
        rw [hA]
        linarith
    rw [hr]
    norm_num
  have h90 : radiansOfDegrees (90 : ℝ) = π / 2 := by
    unfold radiansOfDegrees
    ring
  have hx0 : (geographic_to_sinusoidal (sinusoidal_to_geographic
      (SINUSOIDAL_X_MIN, SINUSOIDAL_Y_MAX))).1 = 0 := by
    simp only [sinusoidal_to_geographic, geographic_to_sinusoidal]
    rw [hlat, h90, Real.cos_pi_div_two, mul_zero]
  refine ⟨hx0, ?_⟩
  rw [hx0, X_MIN_cast]
  have hval : (0 : ℝ) - (-20015109.3558) = 20015109.3558 := by norm_num
  rw [hval, abs_of_pos (by norm_num : (0 : ℝ) < 20015109.3558)]
  norm_num

/-- C3 amended: for every pixel point of a tile whose latitude is strictly
inside the poles (positive cosine) and whose longitude lies within the
±180° range of the projection, the round trip of the inverse and forward
sinusoidal projections recovers the sinusoidal coordinate within the error
induced by the 6-decimal degree rounding: at most 1/4 m in x and 3/50 m in
y.  (The counterexample shows the bound fails at the grid's polar edge, so
the pole exclusion is necessary.) -/
theorem c3_roundtrip (h v row col N : ℕ) (q : ℚ × ℚ)
    (hq : q = pixel_to_sinusoidal (tile_origin h v) row col (SINUSOIDAL_TILE_METERS / N))
    (hcos : 0 < Real.cos ((q.2 : ℝ) / RADIUS))
    (hlon : |(q.1 : ℝ)| ≤ π * RADIUS * Real.cos ((q.2 : ℝ) / RADIUS)) :
    |(geographic_to_sinusoidal (sinusoidal_to_geographic q)).1 - (q.1 : ℝ)| ≤ 1 / 4 ∧
    |(geographic_to_sinusoidal (sinusoidal_to_geographic q)).2 - (q.2 : ℝ)| ≤ 3 / 50 := by
  clear hq
  set x : ℝ := (q.1 : ℝ)
  set y : ℝ := (q.2 : ℝ)
  set l : ℝ := y / RADIUS with hl
  set lam : ℝ := x / (RADIUS * Real.cos l) with hlam
  have hR := RADIUS_pos
  have hRu : RADIUS ≤ 6371008 := by rw [RADIUS_eq]; norm_num
  have hdl := rad_roundPrec_deg l
  have hdlam := rad_roundPrec_deg lam
  set l2 : ℝ := radiansOfDegrees (roundPrec (degreesOfRadians l))
  set lam2 : ℝ := radiansOfDegrees (roundPrec (degreesOfRadians lam))
  have hfst : (geographic_to_sinusoidal (sinusoidal_to_geographic q)).1
      = RADIUS * lam2 * Real.cos l2 := rfl
  have hsnd : (geographic_to_sinusoidal (sinusoidal_to_geographic q)).2
      = RADIUS * l2 := rfl
  have hyl : y = RADIUS * l := by
    rw [hl]
    field_simp
  have hy2 : |RADIUS * l2 - y| ≤ 3 / 50 := by
    have hye : RADIUS * l2 - y = RADIUS * (l2 - l) := by rw [hyl]; ring
    rw [hye, abs_mul, abs_of_pos hR]
    have hstep : RADIUS * |l2 - l| ≤ 6371008 * (π / 360000000) :=
      mul_le_mul hRu hdl (abs_nonneg _) (by norm_num)
    nlinarith [Real.pi_lt_d6]
  have hxl : x = RADIUS * lam * Real.cos l := by
    rw [hlam]
    field_simp
    ring
  have hlamb : |lam| ≤ π := by
    rw [hlam, abs_div, abs_of_pos (mul_pos hR hcos), div_le_iff₀ (mul_pos hR hcos)]
    calc |x| ≤ π * RADIUS * Real.cos l := hlon
    _ = π * (RADIUS * Real.cos l) := by ring
  have hx2 : |RADIUS * lam2 * Real.cos l2 - x| ≤ 1 / 4 := by
    have hde : RADIUS * lam2 * Real.cos l2 - x
        = RADIUS * ((lam2 - lam) * Real.cos l2 + lam * (Real.cos l2 - Real.cos l)) := by
      rw [hxl]; ring
    rw [hde, abs_mul, abs_of_pos hR]
    have hsum : |(lam2 - lam) * Real.cos l2 + lam * (Real.cos l2 - Real.cos l)|
        ≤ |lam2 - lam| * |Real.cos l2| + |lam| * |Real.cos l2 - Real.cos l| := by
      calc |(lam2 - lam) * Real.cos l2 + lam * (Real.cos l2 - Real.cos l)|
          ≤ |(lam2 - lam) * Real.cos l2| + |lam * (Real.cos l2 - Real.cos l)| := abs_add _ _
      _ = |lam2 - lam| * |Real.cos l2| + |lam| * |Real.cos l2 - Real.cos l| := by
          rw [abs_mul, abs_mul]
    have hb1 : |lam2 - lam| * |Real.cos l2| ≤ π / 360000000 * 1 :=
      mul_le_mul hdlam (Real.abs_cos_le_one _) (abs_nonneg _)
        (by positivity)
    have hb2 : |lam| * |Real.cos l2 - Real.cos l| ≤ π * (π / 360000000) :=
      mul_le_mul hlamb ((abs_cos_sub_cos_le _ _).trans hdl) (abs_nonneg _)
        Real.pi_pos.le
    have hfin : RADIUS * (π / 360000000 * 1 + π * (π / 360000000)) ≤ 1 / 4 := by
      nlinarith [Real.pi_lt_d6, Real.pi_pos, hRu, hR]
    have hmid : RADIUS * |(lam2 - lam) * Real.cos l2 + lam * (Real.cos l2 - Real.cos l)|
        ≤ RADIUS * (π / 360000000 * 1 + π * (π / 360000000)) := by
      apply mul_le_mul_of_nonneg_left _ hR.le
      linarith [hsum, hb1, hb2]
    linarith [hmid, hfin]
  rw [hfst, hsnd]
  exact ⟨hx2, hy2⟩

/-- Witness for the amended C3 at pixel (0, 0) of tile (18, 9), the grid
point next to the projection origin. -/
theorem c3_roundtrip_witness :
    (((3 : ℚ) / 50000, (-3 : ℚ) / 100000) =
        pixel_to_sinusoidal (tile_origin 18 9) 0 0 (SINUSOIDAL_TILE_METERS / 1200)) ∧
    (0 < Real.cos ((((((3 : ℚ) / 50000, (-3 : ℚ) / 100000) : ℚ × ℚ).2 : ℝ)) / RADIUS)) ∧
    (|((((3 : ℚ) / 50000, (-3 : ℚ) / 100000) : ℚ × ℚ).1 : ℝ)| ≤
      π * RADIUS * Real.cos (((((3 : ℚ) / 50000, (-3 : ℚ) / 100000) : ℚ × ℚ).2 : ℝ) / RADIUS)) ∧
    (|(geographic_to_sinusoidal (sinusoidal_to_geographic
        ((3 : ℚ) / 50000, (-3 : ℚ) / 100000))).1 -
      ((((3 : ℚ) / 50000, (-3 : ℚ) / 100000) : ℚ × ℚ).1 : ℝ)| ≤ 1 / 4 ∧
     |(geographic_to_sinusoidal (sinusoidal_to_geographic
        ((3 : ℚ) / 50000, (-3 : ℚ) / 100000))).2 -
      ((((3 : ℚ) / 50000, (-3 : ℚ) / 100000) : ℚ × ℚ).2 : ℝ)| ≤ 3 / 50) := by
  have h1 : (((3 : ℚ) / 50000, (-3 : ℚ) / 100000) : ℚ × ℚ) =
      pixel_to_sinusoidal (tile_origin 18 9) 0 0 (SINUSOIDAL_TILE_METERS / 1200) := by
    unfold pixel_to_sinusoidal tile_origin SINUSOIDAL_X_MIN SINUSOIDAL_Y_MAX
      SINUSOIDAL_TILE_METERS
    norm_num
  have hcast : ((((3 : ℚ) / 50000, (-3 : ℚ) / 100000) : ℚ × ℚ).2 : ℝ) / RADIUS
      = -3 / 100000 / 6371007.181 := by
    rw [RADIUS_eq]
    push_cast
    ring
  have h2 : 0 < Real.cos (((((3 : ℚ) / 50000, (-3 : ℚ) / 100000) : ℚ × ℚ).2 : ℝ) / RADIUS) := by
    rw [hcast]
    apply Real.cos_pos_of_mem_Ioo
    rw [Set.mem_Ioo]
    constructor <;> nlinarith [Real.pi_gt_three]
  have hcge : (1 : ℝ) / 2 ≤
      Real.cos (((((3 : ℚ) / 50000, (-3 : ℚ) / 100000) : ℚ × ℚ).2 : ℝ) / RADIUS) := by
    rw [hcast]
    have h0 : 1 - (-3 / 100000 / 6371007.181 : ℝ) ^ 2 / 2 ≤
        Real.cos (-3 / 100000 / 6371007.181 : ℝ) := Real.one_sub_sq_div_two_le_cos
    nlinarith
  have h3 : |((((3 : ℚ) / 50000, (-3 : ℚ) / 100000) : ℚ × ℚ).1 : ℝ)| ≤
      π * RADIUS * Real.cos (((((3 : ℚ) / 50000, (-3 : ℚ) / 100000) : ℚ × ℚ).2 : ℝ) / RADIUS) := by
    have hRl : (6371007 : ℝ) ≤ RADIUS := by rw [RADIUS_eq]; norm_num
    have hleft : |((((3 : ℚ) / 50000, (-3 : ℚ) / 100000) : ℚ × ℚ).1 : ℝ)| = 3 / 50000 := by
      push_cast
      rw [abs_of_pos (by norm_num)]
    rw [hleft]
    have hprod : (3 : ℝ) * 6371007 ≤ π * RADIUS := by
      have := Real.pi_gt_three
      nlinarith
    calc (3 : ℝ) / 50000 ≤ 3 * 6371007 * (1 / 2) := by norm_num
    _ ≤ π * RADIUS *
        Real.cos (((((3 : ℚ) / 50000, (-3 : ℚ) / 100000) : ℚ × ℚ).2 : ℝ) / RADIUS) :=
      mul_le_mul hprod hcge (by norm_num) (by positivity)
  exact ⟨h1, h2, h3, c3_roundtrip 18 9 0 0 1200 _ h1 h2 h3⟩

/-- C6: for every tile of the 18-row MODIS grid and every positive pixel
resolution, full-tile mode produces a closed ring of exactly 5 points: the
four pairwise-distinct corner Geographic Points northwest, northeast,
southeast, southwest followed by a closing point equal to the first; the
ring encloses non-zero area, and its bounding box is the componentwise
min/max of the four corners' longitude/latitude. -/
theorem c6_full_tile_ring (h v N : ℕ) (hv : v ≤ 17) (hN : 0 < N) :
    (full_tile_ring h v N).length = 5 ∧
    full_tile_ring h v N = [tile_corner h v N 0 0, tile_corner h v N 0 N,
      tile_corner h v N N N, tile_corner h v N N 0, tile_corner h v N 0 0] ∧
    List.Pairwise (· ≠ ·) [tile_corner h v N 0 0, tile_corner h v N 0 N,
      tile_corner h v N N N, tile_corner h v N N 0] ∧
    ringArea (full_tile_ring h v N) ≠ 0 ∧
    ringBbox (full_tile_ring h v N) =
      (min (min (min (tile_corner h v N 0 0).1 (tile_corner h v N 0 N).1)
          (tile_corner h v N N N).1) (tile_corner h v N N 0).1,
       min (min (min (tile_corner h v N 0 0).2 (tile_corner h v N 0 N).2)
          (tile_corner h v N N N).2) (tile_corner h v N N 0).2,
       max (max (max (tile_corner h v N 0 0).1 (tile_corner h v N 0 N).1)
          (tile_corner h v N N N).1) (tile_corner h v N N 0).1,
       max (max (max (tile_corner h v N 0 0).2 (tile_corner h v N 0 N).2)
          (tile_corner h v N N N).2) (tile_corner h v N N 0).2) := by
  have hNQ : ((N : ℚ)) ≠ 0 := Nat.cast_ne_zero.mpr hN.ne'
  have hNT : (N : ℚ) * (SINUSOIDAL_TILE_METERS / N) = SINUSOIDAL_TILE_METERS := by
    field_simp
  have hp00 : pixel_to_sinusoidal (tile_origin h v) 0 0 (SINUSOIDAL_TILE_METERS / N) =
      (SINUSOIDAL_X_MIN + h * SINUSOIDAL_TILE_METERS, latticeY v) := by
    simp [pixel_to_sinusoidal, tile_origin, latticeY]
  have hp0N : pixel_to_sinusoidal (tile_origin h v) 0 N (SINUSOIDAL_TILE_METERS / N) =
      (SINUSOIDAL_X_MIN + h * SINUSOIDAL_TILE_METERS + SINUSOIDAL_TILE_METERS,
        latticeY v) := by
    simp [pixel_to_sinusoidal, tile_origin, latticeY, hNT]
  have hpNN : pixel_to_sinusoidal (tile_origin h v) N N (SINUSOIDAL_TILE_METERS / N) =
      (SINUSOIDAL_X_MIN + h * SINUSOIDAL_TILE_METERS + SINUSOIDAL_TILE_METERS,
        latticeY (v + 1)) := by
    simp only [pixel_to_sinusoidal, tile_origin, latticeY, hNT, Prod.mk.injEq]
    exact ⟨by ring, by push_cast; ring⟩
  have hpN0 : pixel_to_sinusoidal (tile_origin h v) N 0 (SINUSOIDAL_TILE_METERS / N) =
      (SINUSOIDAL_X_MIN + h * SINUSOIDAL_TILE_METERS, latticeY (v + 1)) := by
    simp only [pixel_to_sinusoidal, tile_origin, latticeY, hNT, Nat.cast_zero, zero_mul,
      add_zero, Prod.mk.injEq]
    exact ⟨by ring, by push_cast; ring⟩
  have hcast : (((SINUSOIDAL_X_MIN + h * SINUSOIDAL_TILE_METERS +
        SINUSOIDAL_TILE_METERS : ℚ)) : ℝ) =
      (((SINUSOIDAL_X_MIN + h * SINUSOIDAL_TILE_METERS : ℚ)) : ℝ) +
        ((SINUSOIDAL_TILE_METERS : ℚ) : ℝ) := by
    push_cast
    ring
  have hnw : tile_corner h v N 0 0 =
      (roundPrec (degreesOfRadians ((((SINUSOIDAL_X_MIN + h * SINUSOIDAL_TILE_METERS : ℚ)) : ℝ) /
          (RADIUS * Real.cos (((latticeY v : ℚ) : ℝ) / RADIUS)))),
       roundPrec (degreesOfRadians (((latticeY v : ℚ) : ℝ) / RADIUS))) := by
    unfold tile_corner
    rw [hp00, s2g_pair]
  have hne2 : tile_corner h v N 0 N =
      (roundPrec (degreesOfRadians (((((SINUSOIDAL_X_MIN + h * SINUSOIDAL_TILE_METERS : ℚ)) : ℝ) +
            ((SINUSOIDAL_TILE_METERS : ℚ) : ℝ)) /
          (RADIUS * Real.cos (((latticeY v : ℚ) : ℝ) / RADIUS)))),
       roundPrec (degreesOfRadians (((latticeY v : ℚ) : ℝ) / RADIUS))) := by
    unfold tile_corner
    rw [hp0N, s2g_pair, hcast]
  have hse : tile_corner h v N N N =
      (roundPrec (degreesOfRadians (((((SINUSOIDAL_X_MIN + h * SINUSOIDAL_TILE_METERS : ℚ)) : ℝ) +
            ((SINUSOIDAL_TILE_METERS : ℚ) : ℝ)) /
          (RADIUS * Real.cos (((latticeY (v + 1) : ℚ) : ℝ) / RADIUS)))),
       roundPrec (degreesOfRadians (((latticeY (v + 1) : ℚ) : ℝ) / RADIUS))) := by
    unfold tile_corner
    rw [hpNN, s2g_pair, hcast]
  have hsw : tile_corner h v N N 0 =
      (roundPrec (degreesOfRadians ((((SINUSOIDAL_X_MIN + h * SINUSOIDAL_TILE_METERS : ℚ)) : ℝ) /
          (RADIUS * Real.cos (((latticeY (v + 1) : ℚ) : ℝ) / RADIUS)))),
       roundPrec (degreesOfRadians (((latticeY (v + 1) : ℚ) : ℝ) / RADIUS))) := by
    unfold tile_corner
    rw [hpN0, s2g_pair]
  have hcNne : Real.cos (((latticeY v : ℚ) : ℝ) / RADIUS) ≠ 0 :=
    cos_latticeY_ne_zero v (by omega)
  have hcSne : Real.cos (((latticeY (v + 1) : ℚ) : ℝ) / RADIUS) ≠ 0 :=
    cos_latticeY_ne_zero (v + 1) (by omega)
  have hys : ((latticeY (v + 1) : ℚ) : ℝ) =
      ((latticeY v : ℚ) : ℝ) - ((SINUSOIDAL_TILE_METERS : ℚ) : ℝ) := by
    unfold latticeY
    push_cast
    ring
  have hts : roundPrec (degreesOfRadians (((latticeY (v + 1) : ℚ) : ℝ) / RADIUS)) <
      roundPrec (degreesOfRadians (((latticeY v : ℚ) : ℝ) / RADIUS)) := by
    rw [hys]
    exact lat_roundPrec_lt _
  have habN : |Real.cos (((latticeY v : ℚ) : ℝ) / RADIUS)| ≤ 1 := Real.abs_cos_le_one _
  have habS : |Real.cos (((latticeY (v + 1) : ℚ) : ℝ) / RADIUS)| ≤ 1 :=
    Real.abs_cos_le_one _
  have hlonN := lon_pair_ne (((SINUSOIDAL_X_MIN + h * SINUSOIDAL_TILE_METERS : ℚ)) : ℝ)
    (Real.cos (((latticeY v : ℚ) : ℝ) / RADIUS)) hcNne habN
  have hlonS := lon_pair_ne (((SINUSOIDAL_X_MIN + h * SINUSOIDAL_TILE_METERS : ℚ)) : ℝ)
    (Real.cos (((latticeY (v + 1) : ℚ) : ℝ) / RADIUS)) hcSne habS
  have hba : |(roundPrec (degreesOfRadians (((((SINUSOIDAL_X_MIN + h * SINUSOIDAL_TILE_METERS : ℚ)) : ℝ) +
          ((SINUSOIDAL_TILE_METERS : ℚ) : ℝ)) /
          (RADIUS * Real.cos (((latticeY v : ℚ) : ℝ) / RADIUS)))) -
        roundPrec (degreesOfRadians ((((SINUSOIDAL_X_MIN + h * SINUSOIDAL_TILE_METERS : ℚ)) : ℝ) /
          (RADIUS * Real.cos (((latticeY v : ℚ) : ℝ) / RADIUS))))) -
      180 * ((SINUSOIDAL_TILE_METERS : ℚ) : ℝ) / (π * RADIUS) /
        Real.cos (((latticeY v : ℚ) : ℝ) / RADIUS)| ≤ 1 / 1000000 := by
    have h1 := roundPrec_sub_close
      (degreesOfRadians ((((SINUSOIDAL_X_MIN + h * SINUSOIDAL_TILE_METERS : ℚ)) : ℝ) /
        (RADIUS * Real.cos (((latticeY v : ℚ) : ℝ) / RADIUS))))
      (degreesOfRadians (((((SINUSOIDAL_X_MIN + h * SINUSOIDAL_TILE_METERS : ℚ)) : ℝ) +
          ((SINUSOIDAL_TILE_METERS : ℚ) : ℝ)) /
        (RADIUS * Real.cos (((latticeY v : ℚ) : ℝ) / RADIUS))))
    rwa [lon_deg_diff (((SINUSOIDAL_X_MIN + h * SINUSOIDAL_TILE_METERS : ℚ)) : ℝ)
      (Real.cos (((latticeY v : ℚ) : ℝ) / RADIUS)) hcNne] at h1
  have hdc : |(roundPrec (degreesOfRadians (((((SINUSOIDAL_X_MIN + h * SINUSOIDAL_TILE_METERS : ℚ)) : ℝ) +
          ((SINUSOIDAL_TILE_METERS : ℚ) : ℝ)) /
          (RADIUS * Real.cos (((latticeY (v + 1) : ℚ) : ℝ) / RADIUS)))) -
        roundPrec (degreesOfRadians ((((SINUSOIDAL_X_MIN + h * SINUSOIDAL_TILE_METERS : ℚ)) : ℝ) /
          (RADIUS * Real.cos (((latticeY (v + 1) : ℚ) : ℝ) / RADIUS))))) -
      180 * ((SINUSOIDAL_TILE_METERS : ℚ) : ℝ) / (π * RADIUS) /
        Real.cos (((latticeY (v + 1) : ℚ) : ℝ) / RADIUS)| ≤ 1 / 1000000 := by
    have h1 := roundPrec_sub_close
      (degreesOfRadians ((((SINUSOIDAL_X_MIN + h * SINUSOIDAL_TILE_METERS : ℚ)) : ℝ) /
        (RADIUS * Real.cos (((latticeY (v + 1) : ℚ) : ℝ) / RADIUS))))
      (degreesOfRadians (((((SINUSOIDAL_X_MIN + h * SINUSOIDAL_TILE_METERS : ℚ)) : ℝ) +
          ((SINUSOIDAL_TILE_METERS : ℚ) : ℝ)) /
        (RADIUS * Real.cos (((latticeY (v + 1) : ℚ) : ℝ) / RADIUS))))
    rwa [lon_deg_diff (((SINUSOIDAL_X_MIN + h * SINUSOIDAL_TILE_METERS : ℚ)) : ℝ)
      (Real.cos (((latticeY (v + 1) : ℚ) : ℝ) / RADIUS)) hcSne] at h1
  have hring : full_tile_ring h v N =
      [(roundPrec (degreesOfRadians ((((SINUSOIDAL_X_MIN + h * SINUSOIDAL_TILE_METERS : ℚ)) : ℝ) /
          (RADIUS * Real.cos (((latticeY v : ℚ) : ℝ) / RADIUS)))),
        roundPrec (degreesOfRadians (((latticeY v : ℚ) : ℝ) / RADIUS))),
       (roundPrec (degreesOfRadians (((((SINUSOIDAL_X_MIN + h * SINUSOIDAL_TILE_METERS : ℚ)) : ℝ) +
            ((SINUSOIDAL_TILE_METERS : ℚ) : ℝ)) /
          (RADIUS * Real.cos (((latticeY v : ℚ) : ℝ) / RADIUS)))),
        roundPrec (degreesOfRadians (((latticeY v : ℚ) : ℝ) / RADIUS))),
       (roundPrec (degreesOfRadians (((((SINUSOIDAL_X_MIN + h * SINUSOIDAL_TILE_METERS : ℚ)) : ℝ) +
            ((SINUSOIDAL_TILE_METERS : ℚ) : ℝ)) /
          (RADIUS * Real.cos (((latticeY (v + 1) : ℚ) : ℝ) / RADIUS)))),
        roundPrec (degreesOfRadians (((latticeY (v + 1) : ℚ) : ℝ) / RADIUS))),
       (roundPrec (degreesOfRadians ((((SINUSOIDAL_X_MIN + h * SINUSOIDAL_TILE_METERS : ℚ)) : ℝ) /
          (RADIUS * Real.cos (((latticeY (v + 1) : ℚ) : ℝ) / RADIUS)))),
        roundPrec (degreesOfRadians (((latticeY (v + 1) : ℚ) : ℝ) / RADIUS))),
       (roundPrec (degreesOfRadians ((((SINUSOIDAL_X_MIN + h * SINUSOIDAL_TILE_METERS : ℚ)) : ℝ) /
          (RADIUS * Real.cos (((latticeY v : ℚ) : ℝ) / RADIUS)))),
        roundPrec (degreesOfRadians (((latticeY v : ℚ) : ℝ) / RADIUS)))] := by
    unfold full_tile_ring
    rw [hnw, hne2, hse, hsw]
  refine ⟨rfl, rfl, ?_, ?_, ringBbox_closed_ring _ _ _ _⟩
  · rw [hnw, hne2, hse, hsw]
    exact ring_corners_pairwise _ _ _ _ _ _ hlonN hlonS hts
  · rw [hring]
    unfold ringArea
    apply div_ne_zero _ (by norm_num : (2 : ℝ) ≠ 0)
    apply abs_ne_zero.mpr
    exact ring_shoelace_ne _ _ _ _ _ _ _ _ hts (width_sum_ge_one v hv) hba hdc

/-- Witness for C6 at tile (0, 1) with 1200 pixels per edge. -/
theorem c6_full_tile_ring_witness :
    (1 : ℕ) ≤ 17 ∧ 0 < 1200 ∧
    ((full_tile_ring 0 1 1200).length = 5 ∧
     full_tile_ring 0 1 1200 = [tile_corner 0 1 1200 0 0, tile_corner 0 1 1200 0 1200,
       tile_corner 0 1 1200 1200 1200, tile_corner 0 1 1200 1200 0,
       tile_corner 0 1 1200 0 0] ∧
     List.Pairwise (· ≠ ·) [tile_corner 0 1 1200 0 0, tile_corner 0 1 1200 0 1200,
       tile_corner 0 1 1200 1200 1200, tile_corner 0 1 1200 1200 0] ∧
     ringArea (full_tile_ring 0 1 1200) ≠ 0 ∧
     ringBbox (full_tile_ring 0 1 1200) =
       (min (min (min (tile_corner 0 1 1200 0 0).1 (tile_corner 0 1 1200 0 1200).1)
           (tile_corner 0 1 1200 1200 1200).1) (tile_corner 0 1 1200 1200 0).1,
        min (min (min (tile_corner 0 1 1200 0 0).2 (tile_corner 0 1 1200 0 1200).2)
           (tile_corner 0 1 1200 1200 1200).2) (tile_corner 0 1 1200 1200 0).2,
        max (max (max (tile_corner 0 1 1200 0 0).1 (tile_corner 0 1 1200 0 1200).1)
           (tile_corner 0 1 1200 1200 1200).1) (tile_corner 0 1 1200 1200 0).1,
        max (max (max (tile_corner 0 1 1200 0 0).2 (tile_corner 0 1 1200 0 1200).2)
           (tile_corner 0 1 1200 1200 1200).2) (tile_corner 0 1 1200 1200 0).2)) :=
  ⟨by decide, by decide, c6_full_tile_ring 0 1 1200 (by decide) (by decide)⟩

/-- C7: for every raster band with at least one valid pixel whose pixel
coordinates lie within the tile's pixel grid, the area (Lebesgue measure in
the sinusoidal plane) of the convex hull of the valid pixels' sinusoidal
positions never exceeds the area of the full tile rectangle, which is
exactly `TILE_METERS²`. -/
theorem c7_hull_area_le_tile (band : List (List ℤ)) (fill : ℤ) (h v N : ℕ)
    (hN : 0 < N)
    (hdim : ∀ rc ∈ valid_pixel_coords band fill, rc.1 ≤ N ∧ rc.2 ≤ N)
    (hne : valid_pixel_coords band fill ≠ []) :
    MeasureTheory.volume (convexHull ℝ
        (validSinusoidalPoints band fill (tile_origin h v) (SINUSOIDAL_TILE_METERS / N))) ≤
      MeasureTheory.volume (tileRect h v) ∧
    MeasureTheory.volume (tileRect h v) =
      ENNReal.ofReal (((SINUSOIDAL_TILE_METERS : ℚ) : ℝ) ^ 2) := by
  have hT : (0 : ℚ) < SINUSOIDAL_TILE_METERS := by norm_num [SINUSOIDAL_TILE_METERS]
  have hNQ : ((N : ℚ)) ≠ 0 := Nat.cast_ne_zero.mpr hN.ne'
  have hNT : (N : ℚ) * (SINUSOIDAL_TILE_METERS / N) = SINUSOIDAL_TILE_METERS := by
    field_simp
  have hpsz : (0 : ℚ) ≤ SINUSOIDAL_TILE_METERS / N :=
    div_nonneg hT.le (Nat.cast_nonneg N)
  have hsub : validSinusoidalPoints band fill (tile_origin h v)
      (SINUSOIDAL_TILE_METERS / N) ⊆ tileRect h v := by
    intro q hq
    obtain ⟨rc, hrc, rfl⟩ := hq
    have hr := (hdim rc hrc).1
    have hc := (hdim rc hrc).2
    have hrQ : ((rc.1 : ℚ)) ≤ (N : ℚ) := by exact_mod_cast hr
    have hcQ : ((rc.2 : ℚ)) ≤ (N : ℚ) := by exact_mod_cast hc
    have hxq : (tile_origin h v).1 ≤ (pixel_to_sinusoidal (tile_origin h v) rc.1 rc.2
        (SINUSOIDAL_TILE_METERS / N)).1 ∧
        (pixel_to_sinusoidal (tile_origin h v) rc.1 rc.2
          (SINUSOIDAL_TILE_METERS / N)).1 ≤ (tile_origin h v).1 + SINUSOIDAL_TILE_METERS := by
      unfold pixel_to_sinusoidal
      constructor
      · have : (0 : ℚ) ≤ (rc.2 : ℚ) * (SINUSOIDAL_TILE_METERS / N) :=
          mul_nonneg (Nat.cast_nonneg _) hpsz
        linarith
      · have : ((rc.2 : ℚ)) * (SINUSOIDAL_TILE_METERS / N) ≤
            (N : ℚ) * (SINUSOIDAL_TILE_METERS / N) :=
          mul_le_mul_of_nonneg_right hcQ hpsz
        rw [hNT] at this
        linarith
    have hyq : (tile_origin h v).2 - SINUSOIDAL_TILE_METERS ≤
        (pixel_to_sinusoidal (tile_origin h v) rc.1 rc.2 (SINUSOIDAL_TILE_METERS / N)).2 ∧
        (pixel_to_sinusoidal (tile_origin h v) rc.1 rc.2
          (SINUSOIDAL_TILE_METERS / N)).2 ≤ (tile_origin h v).2 := by
      unfold pixel_to_sinusoidal
      constructor
      · have : ((rc.1 : ℚ)) * (SINUSOIDAL_TILE_METERS / N) ≤
            (N : ℚ) * (SINUSOIDAL_TILE_METERS / N) :=
          mul_le_mul_of_nonneg_right hrQ hpsz
        rw [hNT] at this
        linarith
      · have : (0 : ℚ) ≤ (rc.1 : ℚ) * (SINUSOIDAL_TILE_METERS / N) :=
          mul_nonneg (Nat.cast_nonneg _) hpsz
        linarith
    rw [tileRect, Set.mem_prod]
    dsimp only
    constructor
    · rw [Set.mem_Icc]
      constructor
      · exact_mod_cast hxq.1
      · have hcast : (((tile_origin h v).1 : ℝ)) + ((SINUSOIDAL_TILE_METERS : ℚ) : ℝ) =
            (((tile_origin h v).1 + SINUSOIDAL_TILE_METERS : ℚ) : ℝ) := by push_cast; ring
        rw [hcast]
        exact_mod_cast hxq.2
    · rw [Set.mem_Icc]
      constructor
      · have hcast : (((tile_origin h v).2 : ℝ)) - ((SINUSOIDAL_TILE_METERS : ℚ) : ℝ) =
            (((tile_origin h v).2 - SINUSOIDAL_TILE_METERS : ℚ) : ℝ) := by push_cast; ring
        rw [hcast]
        exact_mod_cast hyq.1
      · exact_mod_cast hyq.2
  have hconv : Convex ℝ (tileRect h v) := by
    rw [tileRect]
    exact Convex.prod (convex_Icc _ _) (convex_Icc _ _)
  have hvol : MeasureTheory.volume (tileRect h v) =
      ENNReal.ofReal (((SINUSOIDAL_TILE_METERS : ℚ) : ℝ) ^ 2) := by
    rw [tileRect, MeasureTheory.Measure.volume_eq_prod, MeasureTheory.Measure.prod_prod,
      Real.volume_Icc, Real.volume_Icc]
    have e1 : (((tile_origin h v).1 : ℝ)) + ((SINUSOIDAL_TILE_METERS : ℚ) : ℝ) -
        (((tile_origin h v).1 : ℝ)) = ((SINUSOIDAL_TILE_METERS : ℚ) : ℝ) := by ring
    have e2 : (((tile_origin h v).2 : ℝ)) -
        ((((tile_origin h v).2 : ℝ)) - ((SINUSOIDAL_TILE_METERS : ℚ) : ℝ)) =
        ((SINUSOIDAL_TILE_METERS : ℚ) : ℝ) := by ring
    rw [e1, e2, ← ENNReal.ofReal_mul (by exact_mod_cast hT.le), ← pow_two]
  exact ⟨MeasureTheory.measure_mono (convexHull_min hsub hconv), hvol⟩

/-- Witness for C7 on a 2×2 band with three valid pixels at tile (0, 0). -/
theorem c7_hull_area_le_tile_witness :
    0 < 2 ∧
    (∀ rc ∈ valid_pixel_coords [[(0 : ℤ), 1], [1, 1]] 0, rc.1 ≤ 2 ∧ rc.2 ≤ 2) ∧
    valid_pixel_coords [[(0 : ℤ), 1], [1, 1]] 0 ≠ [] ∧
    (MeasureTheory.volume (convexHull ℝ
        (validSinusoidalPoints [[(0 : ℤ), 1], [1, 1]] 0 (tile_origin 0 0)
          (SINUSOIDAL_TILE_METERS / 2))) ≤
      MeasureTheory.volume (tileRect 0 0) ∧
    MeasureTheory.volume (tileRect 0 0) =
      ENNReal.ofReal (((SINUSOIDAL_TILE_METERS : ℚ) : ℝ) ^ 2)) :=
  ⟨by decide, by decide, by decide,
    c7_hull_area_le_tile [[(0 : ℤ), 1], [1, 1]] 0 0 0 2 (by decide) (by decide) (by decide)⟩

end Modis
